import Mathlib

/-!
Verification development for the PetBreed-ID exemplar-memory decision engine.

The definitions below are a shallow embedding of `src/ml/predict.py` and
`src/ml/learn.py`.  Embedding vectors are lists of real numbers; NumPy's
`np.linalg.norm` is `Real.sqrt` of the sum of squares.  Store files are an
abstract three-state type (missing / corrupt / well-formed list of records),
matching the three observable outcomes of `os.path.exists` + `json.load`.
Human-readable message strings carrying formatted floats are elided; the
machine-relevant status/action values are modelled exactly.
-/

namespace PetBreedID

noncomputable section

/-! ## Vector primitives (NumPy operations used by both source files) -/

/-- Sum of squares of the entries of a vector. -/
def sumSq (v : List ℝ) : ℝ := (v.map (fun x => x ^ 2)).sum

/-- Dot product (`np.dot`); zips the two vectors. -/
def dot (a b : List ℝ) : ℝ := (List.zipWith (fun x y => x * y) a b).sum

/-- L2 norm (`np.linalg.norm`). -/
def vecNorm (v : List ℝ) : ℝ := Real.sqrt (sumSq v)

/-- Componentwise difference (`emb1 - emb2` on equal-shape arrays). -/
def vsub (a b : List ℝ) : List ℝ := List.zipWith (fun x y => x - y) a b

/-! ## predict.py configuration constants -/

def EXACT_DUPLICATE_THRESHOLD : ℝ := 5.0
def VERY_SIMILAR_THRESHOLD : ℝ := 12.0
def SIMILAR_THRESHOLD : ℝ := 20.0
def WEAK_SIMILARITY_THRESHOLD : ℝ := 30.0

def COSINE_EXACT_THRESHOLD : ℝ := 0.98
def COSINE_VERY_SIMILAR_THRESHOLD : ℝ := 0.92
def COSINE_SIMILAR_THRESHOLD : ℝ := 0.85
def COSINE_WEAK_THRESHOLD : ℝ := 0.75

def MODEL_VERY_HIGH_CONF : ℝ := 0.90
def MODEL_HIGH_CONF : ℝ := 0.85
def MODEL_MEDIUM_CONF : ℝ := 0.70

def MIN_EXAMPLES_FOR_STATS : ℕ := 3

/-! ## Similarity metrics (predict.py lines 190-217) -/

/-- Euclidean distance between two embeddings
(`float(np.linalg.norm(emb1 - emb2))`). -/
def euclidean_distance (a b : List ℝ) : ℝ := vecNorm (vsub a b)

/-- Cosine similarity; returns 0 when the product of norms is zero. -/
def cosine_similarity (a b : List ℝ) : ℝ :=
  if vecNorm a * vecNorm b = 0 then 0 else dot a b / (vecNorm a * vecNorm b)

/-- Combined similarity: returns
(euclidean distance, cosine similarity, combined score). -/
def calculate_combined_similarity (a b : List ℝ) : ℝ × ℝ × ℝ :=
  let ed := euclidean_distance a b
  let cs := cosine_similarity a b
  let es := 1.0 / (1.0 + ed / 10.0)
  (ed, cs, es * 0.4 + cs * 0.6)

/-! ## Data model -/

/-- One stored correction record, as persisted by learn.py and read by
predict.py. `updated_at` is absent until the record is rewritten by the
correction path. -/
structure Exemplar where
  label : String
  embedding : List ℝ
  source_image : String
  added_at : String
  updated_at : Option String := none

/-- The `match_info` dictionary built in `analyze_memory_matches`. -/
structure MatchInfo where
  euclidean_distance : ℝ
  cosine_similarity : ℝ
  combined_score : ℝ
  source_image : String
  added_at : String

/-- The per-breed statistics dictionary built in `analyze_memory_matches`. -/
structure BreedStats where
  num_examples : ℕ
  best_match : MatchInfo
  avg_euclidean : ℝ
  min_euclidean : ℝ
  std_euclidean : ℝ
  avg_cosine : ℝ
  max_cosine : ℝ
  avg_combined_score : ℝ
  max_combined_score : ℝ
  all_matches : List MatchInfo

/-- A persisted store file has three observable states: absent
(`os.path.exists` false), present but failing to parse as the expected
record shape, or a well-formed ordered list of records. -/
inductive StoreFile where
  | missing
  | corrupt
  | good (refs : List Exemplar)

/-! ## NumPy statistics helpers used by analyze_memory_matches -/

def listMean (l : List ℝ) : ℝ := l.sum / l.length

def listMin : List ℝ → ℝ
  | [] => 0
  | x :: xs => xs.foldl min x

def listMax : List ℝ → ℝ
  | [] => 0
  | x :: xs => xs.foldl max x

/-- Population standard deviation (`np.std`). -/
def listStd (l : List ℝ) : ℝ :=
  Real.sqrt (listMean (l.map (fun x => (x - listMean l) ^ 2)))

/-! ## Memory analysis (predict.py lines 242-290) -/

def mkMatchInfo (emb : List ℝ) (r : Exemplar) : MatchInfo :=
  let t := calculate_combined_similarity emb r.embedding
  ⟨t.1, t.2.1, t.2.2, r.source_image, r.added_at⟩

/-- The list built under key `breed` by the defaultdict grouping loop:
the matches of all exemplars carrying that label, in store order. -/
def matchesFor (emb : List ℝ) (refs : List Exemplar) (breed : String) :
    List MatchInfo :=
  (refs.filter (fun r => r.label == breed)).map (mkMatchInfo emb)

/-- Python `min(matches, key=...)`: first element attaining the minimal
euclidean distance. -/
def minByEuclid (m : MatchInfo) : List MatchInfo → MatchInfo
  | [] => m
  | x :: xs =>
      if x.euclidean_distance < m.euclidean_distance then minByEuclid x xs
      else minByEuclid m xs

/-- Statistics for one breed, `none` when the breed has no exemplar
(no key in the defaultdict). Aggregates over ALL matches of the label. -/
def statsFor (emb : List ℝ) (refs : List Exemplar) (breed : String) :
    Option BreedStats :=
  match matchesFor emb refs breed with
  | [] => none
  | m :: ms =>
      let matchList := m :: ms
      let ed := matchList.map (fun mi => mi.euclidean_distance)
      let cs := matchList.map (fun mi => mi.cosine_similarity)
      let cb := matchList.map (fun mi => mi.combined_score)
      some {
        num_examples := matchList.length
        best_match := minByEuclid m ms
        avg_euclidean := listMean ed
        min_euclidean := listMin ed
        std_euclidean := if matchList.length > 1 then listStd ed else 0
        avg_cosine := listMean cs
        max_cosine := listMax cs
        avg_combined_score := listMean cb
        max_combined_score := listMax cb
        all_matches := matchList }

/-- Distinct labels in first-occurrence order (iteration order of the
defaultdict built by the grouping loop). -/
def firstOccur : List String → List String
  | [] => []
  | x :: xs => x :: firstOccur (xs.filter (fun y => y != x))
termination_by l => l.length
decreasing_by
  simp only [List.length_cons]
  exact Nat.lt_succ_of_le (List.length_filter_le _ _)

def labelsOf (refs : List Exemplar) : List String :=
  firstOccur (refs.map (fun r => r.label))

/-- The breed -> statistics mapping returned by `analyze_memory_matches`,
as an association list in dict iteration order. -/
def analyze_memory_matches (emb : List ℝ) (refs : List Exemplar) :
    List (String × BreedStats) :=
  (labelsOf refs).filterMap (fun b => (statsFor emb refs b).map (fun s => (b, s)))

/-- Python `breed_stats.get(breed_name, {})`. -/
def lookupBreed : List (String × BreedStats) → String → Option BreedStats
  | [], _ => none
  | (b, s) :: rest, breed =>
      if b = breed then some s else lookupBreed rest breed

/-! ## Confidence estimation (predict.py lines 292-365) -/

/-- The `base_conf` value of `calculate_memory_confidence`. -/
def base_conf (minE maxC maxComb : ℝ) : ℝ :=
  if minE < EXACT_DUPLICATE_THRESHOLD then
    if minE < 0.1 then 1.00
    else if minE < 0.5 then 0.995
    else if minE < 1.0 then 0.99
    else if minE < 2.0 then 0.985
    else if minE < 3.5 then 0.97
    else 0.96 - ((minE - 3.5) / 1.5) * 0.01
  else if maxC > COSINE_EXACT_THRESHOLD then 0.94
  else if maxComb > 0.90 then 0.88
  else if minE < VERY_SIMILAR_THRESHOLD ∧ maxC > COSINE_VERY_SIMILAR_THRESHOLD
    then 0.82
  else if maxComb > 0.80 then 0.75
  else 0.65

/-- The `example_boost` value of `calculate_memory_confidence`. -/
def example_boost (base : ℝ) (n : ℕ) : ℝ :=
  if base < 0.98 then
    if n ≥ 5 then 0.08 else if n ≥ 3 then 0.05 else if n ≥ 2 then 0.03 else 0.0
  else 0.0

/-- The `variance_penalty` value of `calculate_memory_confidence`. -/
def variance_penalty (n : ℕ) (minE stdE : ℝ) : ℝ :=
  if n ≥ MIN_EXAMPLES_FOR_STATS ∧ minE ≥ EXACT_DUPLICATE_THRESHOLD then
    if stdE > 5.0 then -0.05 else if stdE > 3.0 then -0.03 else 0.0
  else 0.0

/-- Body of `calculate_memory_confidence` once the statistics record for
the requested breed has been found. -/
def confOfStats (s : BreedStats) : ℝ :=
  let base := base_conf s.min_euclidean s.max_cosine s.max_combined_score
  min 1.00 (max 0.55
    (base + example_boost base s.num_examples
      + variance_penalty s.num_examples s.min_euclidean s.std_euclidean))

/-- `calculate_memory_confidence`: 0.5 when the breed has no entry in the
statistics mapping. -/
def calculate_memory_confidence (breed_stats : List (String × BreedStats))
    (breed_name : String) : ℝ :=
  match lookupBreed breed_stats breed_name with
  | none => 0.5
  | some s => confOfStats s

/-! ## Threshold policy (predict.py lines 45-91 and 223-240). The single
Python dict `BREED_SPECIFIC_THRESHOLDS` is split into its three access
paths: euclidean cutoff, cosine cutoff, confusable-breed list. -/

def get_breed_threshold_euclidean (b : String) : ℝ :=
  if b = "Golden Retriever" then 10.0
  else if b = "Labrador Retriever" then 10.0
  else if b = "Chihuahua" then 8.0
  else if b = "Pomeranian" then 9.0
  else if b = "German Shepherd" then 10.0
  else if b = "French Bulldog" then 9.0
  else if b = "English Bulldog" then 9.0
  else if b = "Yorkshire Terrier" then 8.0
  else VERY_SIMILAR_THRESHOLD

def get_breed_threshold_cosine (b : String) : ℝ :=
  if b = "Golden Retriever" then 0.94
  else if b = "Labrador Retriever" then 0.94
  else if b = "Chihuahua" then 0.95
  else if b = "Pomeranian" then 0.94
  else if b = "German Shepherd" then 0.93
  else if b = "French Bulldog" then 0.94
  else if b = "English Bulldog" then 0.94
  else if b = "Yorkshire Terrier" then 0.95
  else COSINE_VERY_SIMILAR_THRESHOLD

def similar_breeds_of (b : String) : List String :=
  if b = "Golden Retriever" then ["Labrador Retriever", "Flat-Coated Retriever"]
  else if b = "Labrador Retriever" then
    ["Golden Retriever", "Chesapeake Bay Retriever"]
  else if b = "Chihuahua" then ["Toy Fox Terrier", "Miniature Pinscher"]
  else if b = "Pomeranian" then ["Spitz", "Keeshond"]
  else if b = "German Shepherd" then ["Belgian Malinois", "Dutch Shepherd"]
  else if b = "French Bulldog" then ["Boston Terrier", "English Bulldog"]
  else if b = "English Bulldog" then ["French Bulldog", "American Bulldog"]
  else if b = "Yorkshire Terrier" then ["Silky Terrier", "Australian Terrier"]
  else []

def is_visually_similar_breed (b1 b2 : String) : Bool :=
  decide (b2 ∈ similar_breeds_of b1) || decide (b1 ∈ similar_breeds_of b2)

/-! ## Decision fusion (predict.py lines 371-534) -/

/-- The fields of `decision_info` that the decision logic populates.
The per-breed `scores` audit dict is bookkeeping only and is elided. -/
structure DecisionInfo where
  decision : String
  memory_used : Bool
  agreement : Option Bool

structure MemCand where
  breed : String
  score : ℝ
  conf : ℝ
  stats : BreedStats

/-- The 0-100 memory score computed for one candidate breed inside
`make_weighted_decision`, including the multi-example bonus and cap. -/
def memoryScore (breed : String) (s : BreedStats) : ℝ :=
  let raw :=
    if s.min_euclidean < EXACT_DUPLICATE_THRESHOLD then
      if s.min_euclidean < 0.1 then 100
      else if s.min_euclidean < 0.5 then 99.5
      else if s.min_euclidean < 1.0 then 99
      else if s.min_euclidean < 2.0 then 98.5
      else if s.min_euclidean < 3.5 then 98
      else 97
    else if s.max_cosine > COSINE_EXACT_THRESHOLD then 96
    else if s.min_euclidean < get_breed_threshold_euclidean breed then
      90 - s.min_euclidean / get_breed_threshold_euclidean breed * 15
    else if s.max_cosine > get_breed_threshold_cosine breed then
      85 * ((s.max_cosine - COSINE_WEAK_THRESHOLD)
        / (get_breed_threshold_cosine breed - COSINE_WEAK_THRESHOLD))
    else if s.max_combined_score > 0.80 then
      75 + (s.max_combined_score - 0.80) * 50
    else 60 + (s.max_combined_score - 0.70) * 50
  let boosted := if s.num_examples ≥ 3 ∧ raw < 99 then raw + 5 else raw
  min 100 boosted

/-- The `memory_candidates` list: one candidate per breed in the statistics
mapping, skipping breeds failing the label-level weak-similarity gate. -/
def memoryCandidates (breed_stats : List (String × BreedStats)) :
    List MemCand :=
  breed_stats.filterMap (fun p =>
    if p.2.min_euclidean > WEAK_SIMILARITY_THRESHOLD ∧
        p.2.max_cosine < COSINE_WEAK_THRESHOLD then none
    else some ⟨p.1, memoryScore p.1 p.2,
      calculate_memory_confidence breed_stats p.1, p.2⟩)

/-- The element at index 0 of the score-descending stable sort of the
candidate list (the only element the source consults): the earliest
candidate attaining the maximal score. -/
def pickBest : List MemCand → Option MemCand
  | [] => none
  | c :: cs =>
      match pickBest cs with
      | none => some c
      | some b => if b.score > c.score then some b else some c

/-- `make_weighted_decision`: final (breed, confidence, decision info).
The unused `model_top5` parameter of the source is dropped. -/
def make_weighted_decision (model_breed : String) (model_conf : ℝ)
    (breed_stats : List (String × BreedStats)) : String × ℝ × DecisionInfo :=
  let model_score := model_conf * 100
  match pickBest (memoryCandidates breed_stats) with
  | none => (model_breed, model_conf, ⟨"no_memory_matches", false, none⟩)
  | some best =>
      if best.stats.min_euclidean < EXACT_DUPLICATE_THRESHOLD then
        (best.breed, best.conf,
          ⟨"memory_exact_duplicate", true, some (model_breed == best.breed)⟩)
      else if model_breed = best.breed then
        let agreement_boost : ℝ := if best.score > 85 then 0.08 else 0.05
        (model_breed,
          min 0.98 (max model_conf best.conf + agreement_boost),
          ⟨"agreement_confidence_boost", true, some true⟩)
      else
        let margin_required : ℝ :=
          if is_visually_similar_breed model_breed best.breed then 20 else 15
        if model_conf > MODEL_VERY_HIGH_CONF ∧ best.score < 92 then
          (model_breed, model_conf,
            ⟨"model_very_high_confidence_override", false, some false⟩)
        else if best.score > model_score + margin_required then
          (best.breed, best.conf,
            ⟨"memory_score_advantage", true, some false⟩)
        else if model_score > best.score + margin_required then
          (model_breed, model_conf,
            ⟨"model_score_advantage", false, some false⟩)
        else if best.conf > model_conf then
          (best.breed, best.conf,
            ⟨"memory_higher_confidence", true, some false⟩)
        else
          (model_breed, model_conf,
            ⟨"model_higher_confidence", false, some false⟩)

/-- The memory-info summary returned by `check_memory`. `decision` is
`none` when the info dict carries no `decision` key (the corrupt-store
branch); `hasError` records presence of the `error` key. -/
structure MemInfo where
  memory_available : Bool
  memory_used : Bool
  memory_size : Option ℕ
  decision : Option String
  hasError : Bool

/-- `check_memory` (predict.py lines 536-614): returns the breed when the
decision used memory, else `none`, plus the info summary. A store file
that raises on load is caught and reported via the `error` key. -/
def check_memory (emb : List ℝ) (file : StoreFile) (model_breed : String)
    (model_conf : ℝ) : Option String × MemInfo :=
  match file with
  | .missing => (none, ⟨false, false, none, some "no_memory_file", false⟩)
  | .corrupt => (none, ⟨false, false, none, none, true⟩)
  | .good refs =>
      if refs.isEmpty then
        (none, ⟨true, false, some 0, some "empty_memory", false⟩)
      else
        let stats := analyze_memory_matches emb refs
        if stats.isEmpty then
          (none, ⟨true, false, some refs.length, some "no_similar_matches",
            false⟩)
        else
          let r := make_weighted_decision model_breed model_conf stats
          ((if r.2.2.memory_used then some r.1 else none),
            ⟨true, r.2.2.memory_used, some refs.length, some r.2.2.decision,
              false⟩)

/-- Breed selection of the predict.py main flow (lines 677-702): the
memory match when `check_memory` returned one, else the classifier's top
label. The prediction call always emits a result — a store-load error is
caught inside `check_memory` (lines 609-614), never re-raised. -/
def predictedBreed (emb : List ℝ) (file : StoreFile) (model_breed : String)
    (model_conf : ℝ) : String :=
  match (check_memory emb file model_breed model_conf).1 with
  | some b => b
  | none => model_breed

end

namespace learn

noncomputable section

/-! ## learn.py: the insertion/deduplication (correction) path -/

def DUPLICATE_THRESHOLD : ℝ := 5.0
def SIMILAR_THRESHOLD : ℝ := 15.0

/-- The action chosen by `check_for_duplicates`. -/
inductive Action where
  | skip
  | update
  | add
deriving DecidableEq

/-- Outcome of the learn.py main flow: one of the three status strings,
the `"status": "error"` branch of a failed update, or the fatal
exception path (error JSON printed, exit 1). -/
inductive LearnResult where
  | skipped
  | updated
  | added
  | updateFailed
  | fatalError
deriving DecidableEq

/-- The closest-exemplar scan of `check_for_duplicates`: distance and
label of the first exemplar attaining the minimal euclidean distance
(strict improvement, mirroring `if dist < closest_distance`). -/
def closestOf (emb : List ℝ) : List Exemplar → Option (ℝ × String)
  | [] => none
  | r :: rs =>
      let d := euclidean_distance emb r.embedding
      match closestOf emb rs with
      | none => some (d, r.label)
      | some (bd, bl) => if bd < d then some (bd, bl) else some (d, r.label)

/-- `check_for_duplicates` (learn.py lines 37-74). A missing file,
an unparsable file (the bare `except` swallows the load error) and an
empty list all yield `add`; the human-readable message is elided. -/
def check_for_duplicates (emb : List ℝ) (file : StoreFile) (label : String) :
    Bool × Action :=
  match file with
  | .missing => (false, .add)
  | .corrupt => (false, .add)
  | .good refs =>
      if refs.isEmpty then (false, .add)
      else
        match closestOf emb refs with
        | none => (false, .add)
        | some (d, lb) =>
            if d < DUPLICATE_THRESHOLD then
              if lb = label then (true, .skip) else (true, .update)
            else if d < SIMILAR_THRESHOLD then (false, .add)
            else (false, .add)

/-- The update loop of learn.py main (lines 123-130): rewrite the label
and updated_at of the FIRST record within the duplicate threshold. -/
def updateFirst (emb : List ℝ) (label now : String) :
    List Exemplar → Option (List Exemplar)
  | [] => none
  | r :: rs =>
      if euclidean_distance emb r.embedding < DUPLICATE_THRESHOLD then
        some ({ r with label := label, updated_at := some now } :: rs)
      else (updateFirst emb label now rs).map (fun l => r :: l)

/-- The learn.py main flow after embedding extraction (lines 113-148),
with the wall clock passed in as `now`. A corrupt store makes the
re-read `json.load(f)` raise inside the outer try, so the call ends on
the fatal path with no write. The missing-file branch re-reads `data`
as the empty list; the two non-corrupt branches spell out the same
action dispatch for their respective `data`. -/
def learnMain (file : StoreFile) (emb : List ℝ) (label source now : String) :
    LearnResult × StoreFile :=
  match file with
  | .corrupt => (.fatalError, .corrupt)
  | .missing =>
      match (check_for_duplicates emb .missing label).2 with
      | .skip => (.skipped, .missing)
      | .update =>
          match updateFirst emb label now [] with
          | some data' => (.updated, .good data')
          | none => (.updateFailed, .missing)
      | .add => (.added, .good ([] ++ [⟨label, emb, source, now, none⟩]))
  | .good refs =>
      match (check_for_duplicates emb (.good refs) label).2 with
      | .skip => (.skipped, .good refs)
      | .update =>
          match updateFirst emb label now refs with
          | some data' => (.updated, .good data')
          | none => (.updateFailed, .good refs)
      | .add => (.added, .good (refs ++ [⟨label, emb, source, now, none⟩]))

end

end learn

noncomputable section

/-! ## Concrete instances used in witnesses and counterexamples -/

/-- A minimal statistics record: one exemplar at distance 0. -/
def wStats : BreedStats :=
  ⟨1, ⟨0, 0, 0, "", ""⟩, 0, 0, 0, 0, 0, 0, 0, []⟩

/-- The memory candidate generated from `wStats` under breed "B". -/
def candB : MemCand := ⟨"B", 100, 1, wStats⟩

/-- Query embedding for the decision counterexample. -/
def qC1 : List ℝ := [20, 15]

/-- Exemplar at euclidean distance 16 and cosine 63/65 from `qC1`:
high-cosine but not an exact duplicate. -/
def refA : Exemplar := ⟨"A", [36, 15], "sa", "ta", none⟩

/-- Exemplar at euclidean distance 4 from `qC1`: an exact duplicate. -/
def refB : Exemplar := ⟨"B", [16, 15], "sb", "tb", none⟩

/-- Query embedding for the analyzer-gate counterexample. -/
def qC2 : List ℝ := [0]

/-- Exemplar failing both weak-similarity gate conditions against `qC2`
(euclidean 40 > 30, cosine 0 < 0.75). -/
def refFar : Exemplar := ⟨"A", [40], "sf", "tf", none⟩

/-- Store record at distance 4 from the correction embedding `[0]`. -/
def rNear : Exemplar := ⟨"x", [4], "s0", "t0", none⟩

/-- Store record at distance 1 from the correction embedding `[0]`:
the closest one, carrying a different label. -/
def rClosest : Exemplar := ⟨"y", [1], "s1", "t1", none⟩

/-- Tier predicate for the confidence monotonicity claim: both distances
fall in the same branch interval of the base-confidence computation. -/
def sameTier (e eP : ℝ) : Prop :=
  (e < 0.1 ∧ eP < 0.1) ∨
  (0.1 ≤ e ∧ e < 0.5 ∧ 0.1 ≤ eP ∧ eP < 0.5) ∨
  (0.5 ≤ e ∧ e < 1.0 ∧ 0.5 ≤ eP ∧ eP < 1.0) ∨
  (1.0 ≤ e ∧ e < 2.0 ∧ 1.0 ≤ eP ∧ eP < 2.0) ∨
  (2.0 ≤ e ∧ e < 3.5 ∧ 2.0 ≤ eP ∧ eP < 3.5) ∨
  (3.5 ≤ e ∧ e < 5.0 ∧ 3.5 ≤ eP ∧ eP < 5.0) ∨
  (5.0 ≤ e ∧ 5.0 ≤ eP)

end

/-! Basic helper lemmas about the vector primitives. -/

theorem sumSq_nonneg (v : List ℝ) : 0 ≤ sumSq v := by
  induction v with
  | nil => simp [sumSq]
  | cons x xs ih =>
      simp only [sumSq, List.map_cons, List.sum_cons] at *
      have hx : (0:ℝ) ≤ x ^ 2 := sq_nonneg x
      linarith

theorem sumSq_eq_zero_iff (v : List ℝ) : sumSq v = 0 ↔ ∀ x ∈ v, x = 0 := by
  induction v with
  | nil => simp [sumSq]
  | cons x xs ih =>
      simp only [sumSq, List.map_cons, List.sum_cons, List.mem_cons] at *
      constructor
      · intro h
        have hx : (0:ℝ) ≤ x ^ 2 := sq_nonneg x
        have hxs : (0:ℝ) ≤ (xs.map (fun x => x ^ 2)).sum := sumSq_nonneg xs
        have hx0 : x ^ 2 = 0 := by linarith
        have hxz : x = 0 := by
          have := sq_eq_zero_iff.mp hx0
          exact this
        refine fun y hy => ?_
        rcases hy with hy | hy
        · exact hy ▸ hxz
        · exact ih.mp (by linarith) y hy
      · intro h
        have hxz : x = 0 := h x (Or.inl rfl)
        have hxs : (xs.map (fun x => x ^ 2)).sum = 0 :=
          ih.mpr (fun y hy => h y (Or.inr hy))
        simp [hxz, hxs]

theorem vsub_self_sumSq (v : List ℝ) : sumSq (vsub v v) = 0 := by
  induction v with
  | nil => simp [sumSq, vsub]
  | cons x xs ih =>
      simp only [vsub, List.zipWith_cons_cons, sumSq, List.map_cons,
        List.sum_cons] at *
      simp [ih]

theorem euclidean_distance_self (v : List ℝ) : euclidean_distance v v = 0 := by
  simp [euclidean_distance, vecNorm, vsub_self_sumSq, Real.sqrt_zero]

theorem vecNorm_nonneg (v : List ℝ) : 0 ≤ vecNorm v := Real.sqrt_nonneg _

theorem dot_self_eq_sumSq (v : List ℝ) : dot v v = sumSq v := by
  induction v with
  | nil => simp [dot, sumSq]
  | cons x xs ih =>
      simp only [dot, sumSq, List.zipWith_cons_cons, List.map_cons,
        List.sum_cons] at *
      rw [ih]
      ring

theorem vecNorm_mul_self (v : List ℝ) : vecNorm v * vecNorm v = sumSq v :=
  Real.mul_self_sqrt (sumSq_nonneg v)

/-! Helper lemmas about the confidence estimator. -/

theorem confOfStats_le_one (s : BreedStats) : confOfStats s ≤ 1.00 := by
  unfold confOfStats
  exact min_le_left _ _

theorem confOfStats_ge (s : BreedStats) : 0.55 ≤ confOfStats s := by
  unfold confOfStats
  exact le_min (by norm_num) (le_max_left _ _)

/-! ## C6 -/

/-- C6: for every label present in the statistics mapping, the confidence
returned by `calculate_memory_confidence` lies in the interval
[0.55, 1.00]. -/
theorem c6_confidence_in_bounds (bs : List (String × BreedStats))
    (b : String) (s : BreedStats) (h : lookupBreed bs b = some s) :
    0.55 ≤ calculate_memory_confidence bs b ∧
      calculate_memory_confidence bs b ≤ 1.00 := by
  unfold calculate_memory_confidence
  rw [h]
  exact ⟨confOfStats_ge s, confOfStats_le_one s⟩

/-- Witness for C6 at a concrete one-entry mapping. -/
theorem c6_confidence_in_bounds_witness :
    0.55 ≤ calculate_memory_confidence [("B", wStats)] "B" ∧
      calculate_memory_confidence [("B", wStats)] "B" ≤ 1.00 :=
  c6_confidence_in_bounds [("B", wStats)] "B" wStats (by simp [lookupBreed])

/-! ## C9 -/

/-- C9: when the requested label has no entry in the statistics mapping,
`calculate_memory_confidence` returns 0.5, a value strictly below the
0.55 confidence floor, rather than raising. -/
theorem c9_missing_label_half (bs : List (String × BreedStats)) (b : String)
    (h : lookupBreed bs b = none) :
    calculate_memory_confidence bs b = 0.5 ∧ (0.5 : ℝ) < 0.55 := by
  unfold calculate_memory_confidence
  rw [h]
  norm_num

/-- Witness for C9 on the empty mapping. -/
theorem c9_missing_label_half_witness :
    calculate_memory_confidence [] "Husky" = 0.5 ∧ (0.5 : ℝ) < 0.55 :=
  c9_missing_label_half [] "Husky" rfl

/-! ## C8 -/

/-- C8: similarity-engine identities: euclidean distance of a vector to
itself is 0; cosine similarity of a nonzero vector with itself is 1; and
cosine similarity is 0 whenever either vector has zero norm (the division
by the norm product is replaced by the zero guard). -/
theorem c8_similarity_identities :
    (∀ a : List ℝ, euclidean_distance a a = 0) ∧
    (∀ a : List ℝ, (∃ x ∈ a, x ≠ 0) → cosine_similarity a a = 1) ∧
    (∀ a b : List ℝ, vecNorm a = 0 ∨ vecNorm b = 0 →
      cosine_similarity a b = 0) := by
  refine ⟨euclidean_distance_self, ?_, ?_⟩
  · intro a ha
    have hsum : sumSq a ≠ 0 := by
      intro h0
      rcases ha with ⟨x, hx, hxne⟩
      exact hxne ((sumSq_eq_zero_iff a).mp h0 x hx)
    unfold cosine_similarity
    rw [vecNorm_mul_self a, if_neg hsum, dot_self_eq_sumSq, div_self hsum]
  · intro a b hab
    unfold cosine_similarity
    rcases hab with h | h
    · rw [if_pos (by rw [h, zero_mul])]
    · rw [if_pos (by rw [h, mul_zero])]

/-- Witness for C8 at concrete vectors. -/
theorem c8_similarity_identities_witness :
    euclidean_distance [(1 : ℝ), 2] [(1 : ℝ), 2] = 0 ∧
    cosine_similarity [(3 : ℝ)] [(3 : ℝ)] = 1 ∧
    cosine_similarity [(0 : ℝ)] [(2 : ℝ)] = 0 :=
  ⟨c8_similarity_identities.1 [(1 : ℝ), 2],
   c8_similarity_identities.2.1 [(3 : ℝ)] ⟨3, by simp, by norm_num⟩,
   c8_similarity_identities.2.2 [(0 : ℝ)] [(2 : ℝ)]
     (Or.inl (by norm_num [vecNorm, sumSq, Real.sqrt_zero]))⟩

/-! ## C3 -/

/-- C3 counterexample: on a corrupt store the DECISION call does not fail
as a hard error. `check_memory` catches the load error itself and the
prediction completes as a classifier-only result: the final breed is the
classifier's label, with the error merely recorded in the info summary —
an automatic fallback, not a failure of the call. -/
theorem c3_corrupt_store_counterexample :
    (check_memory [(0 : ℝ)] .corrupt "Husky" 0.9).1 = none ∧
    (check_memory [(0 : ℝ)] .corrupt "Husky" 0.9).2.hasError = true ∧
    (check_memory [(0 : ℝ)] .corrupt "Husky" 0.9).2.memory_available =
      false ∧
    predictedBreed [(0 : ℝ)] .corrupt "Husky" 0.9 = "Husky" :=
  ⟨rfl, rfl, rfl, rfl⟩

/-- C3 amended: a store file that exists but fails to parse is a hard
error for the CORRECTION call, which ends on the fatal error path with
the store unmutated. The DECISION call instead catches the load error
inside `check_memory` and automatically falls back to a classifier-only
prediction, recording the error in the memory info; in neither path is
the corrupt store silently treated as an empty store (the corrupt-store
info differs from both the empty-store and the missing-file infos). -/
theorem c3_corrupt_store_amended (emb : List ℝ)
    (label source now model_breed : String) (model_conf : ℝ) :
    learn.learnMain .corrupt emb label source now =
      (.fatalError, .corrupt) ∧
    (check_memory emb .corrupt model_breed model_conf).1 = none ∧
    (check_memory emb .corrupt model_breed model_conf).2.hasError = true ∧
    predictedBreed emb .corrupt model_breed model_conf = model_breed ∧
    (check_memory emb .corrupt model_breed model_conf).2 ≠
      (check_memory emb (.good []) model_breed model_conf).2 ∧
    (check_memory emb .corrupt model_breed model_conf).2 ≠
      (check_memory emb .missing model_breed model_conf).2 := by
  refine ⟨rfl, rfl, rfl, rfl, ?_, ?_⟩
  · simp [check_memory]
  · simp [check_memory]

/-! Helper lemmas about the correction path. -/

theorem updateFirst_spec (emb : List ℝ) (label now : String) :
    ∀ (refs out : List Exemplar),
    learn.updateFirst emb label now refs = some out →
    ∃ i, ∃ hi : i < refs.length,
      (∀ j, ∀ hj : j < refs.length, j < i →
        ¬ euclidean_distance emb ((refs.get ⟨j, hj⟩).embedding) <
          learn.DUPLICATE_THRESHOLD) ∧
      euclidean_distance emb ((refs.get ⟨i, hi⟩).embedding) <
        learn.DUPLICATE_THRESHOLD ∧
      out = refs.set i
        { refs.get ⟨i, hi⟩ with label := label, updated_at := some now } := by
  intro refs
  induction refs with
  | nil => intro out h; simp [learn.updateFirst] at h
  | cons r rs ih =>
      intro out h
      unfold learn.updateFirst at h
      by_cases hd :
          euclidean_distance emb r.embedding < learn.DUPLICATE_THRESHOLD
      · rw [if_pos hd] at h
        have hout := (Option.some.injEq _ _).mp h
        refine ⟨0, by simp, ?_, by simpa using hd, ?_⟩
        · intro j hj hj0; omega
        · rw [← hout]; simp
      · rw [if_neg hd] at h
        obtain ⟨out', hout', rfl⟩ := Option.map_eq_some'.mp h
        obtain ⟨i, hi, hmin, hdist, hset⟩ := ih out' hout'
        refine ⟨i + 1, by simpa using Nat.succ_lt_succ hi, ?_, by simpa using hdist, ?_⟩
        · intro j hj hji
          cases j with
          | zero => simpa using hd
          | succ j' =>
              have hj' : j' < rs.length := by simpa using hj
              have := hmin j' hj' (by omega)
              simpa using this
        · simpa using hset

theorem closestOf_mem (emb : List ℝ) :
    ∀ (refs : List Exemplar) (d : ℝ) (lb : String),
    learn.closestOf emb refs = some (d, lb) →
    ∃ r ∈ refs, euclidean_distance emb r.embedding = d ∧ r.label = lb := by
  intro refs
  induction refs with
  | nil => intro d lb h; simp [learn.closestOf] at h
  | cons r rs ih =>
      intro d lb h
      unfold learn.closestOf at h
      rcases hco : learn.closestOf emb rs with _ | ⟨bd, bl⟩
      · rw [hco] at h
        dsimp only at h
        simp only [Option.some.injEq, Prod.mk.injEq] at h
        exact ⟨r, by simp, h.1, h.2⟩
      · rw [hco] at h
        dsimp only at h
        by_cases hlt : bd < euclidean_distance emb r.embedding
        · rw [if_pos hlt] at h
          simp only [Option.some.injEq, Prod.mk.injEq] at h
          obtain ⟨r', hr', hd', hl'⟩ := ih bd bl hco
          exact ⟨r', by simp [hr'], hd'.trans h.1, hl'.trans h.2⟩
        · rw [if_neg hlt] at h
          simp only [Option.some.injEq, Prod.mk.injEq] at h
          exact ⟨r, by simp, h.1, h.2⟩

theorem closestOf_ne_none (emb : List ℝ) (r : Exemplar) (rs : List Exemplar) :
    learn.closestOf emb (r :: rs) ≠ none := by
  unfold learn.closestOf
  rcases learn.closestOf emb rs with _ | ⟨bd, bl⟩
  · simp
  · dsimp only
    split_ifs <;> simp

theorem closestOf_le (emb : List ℝ) :
    ∀ (refs : List Exemplar) (d : ℝ) (lb : String),
    learn.closestOf emb refs = some (d, lb) →
    ∀ r ∈ refs, d ≤ euclidean_distance emb r.embedding := by
  intro refs
  induction refs with
  | nil => intro d lb h; simp [learn.closestOf] at h
  | cons r rs ih =>
      intro d lb h r' hr'
      unfold learn.closestOf at h
      rcases hco : learn.closestOf emb rs with _ | ⟨bd, bl⟩
      · rw [hco] at h
        dsimp only at h
        simp only [Option.some.injEq, Prod.mk.injEq] at h
        have hrs : rs = [] := by
          cases rs with
          | nil => rfl
          | cons s ss => exact absurd hco (closestOf_ne_none emb s ss)
        subst hrs
        rcases List.mem_cons.mp hr' with h' | h'
        · subst h'; exact le_of_eq h.1.symm
        · simp at h'
      · rw [hco] at h
        dsimp only at h
        by_cases hlt : bd < euclidean_distance emb r.embedding
        · rw [if_pos hlt] at h
          simp only [Option.some.injEq, Prod.mk.injEq] at h
          rcases List.mem_cons.mp hr' with h' | h'
          · subst h'; rw [← h.1]; exact le_of_lt hlt
          · rw [← h.1]; exact ih bd bl hco r' h'
        · rw [if_neg hlt] at h
          simp only [Option.some.injEq, Prod.mk.injEq] at h
          rcases List.mem_cons.mp hr' with h' | h'
          · subst h'; exact le_of_eq h.1.symm
          · have h1 := ih bd bl hco r' h'
            have h2 : euclidean_distance emb r.embedding ≤ bd := not_lt.mp hlt
            rw [← h.1]
            linarith

theorem updateFirst_isSome (emb : List ℝ) (label now : String) :
    ∀ refs : List Exemplar,
    (∃ r ∈ refs, euclidean_distance emb r.embedding < learn.DUPLICATE_THRESHOLD) →
    ∃ out, learn.updateFirst emb label now refs = some out := by
  intro refs
  induction refs with
  | nil => intro h; simp at h
  | cons r rs ih =>
      intro h
      unfold learn.updateFirst
      by_cases hd :
          euclidean_distance emb r.embedding < learn.DUPLICATE_THRESHOLD
      · exact ⟨_, by rw [if_pos hd]⟩
      · obtain ⟨r', hr', hd'⟩ := h
        rcases List.mem_cons.mp hr' with h' | h'
        · exact absurd (h' ▸ hd') hd
        · obtain ⟨out, hout⟩ := ih ⟨r', h', hd'⟩
          exact ⟨r :: out, by rw [if_neg hd, hout]; rfl⟩

theorem closestOf_append_self (emb : List ℝ) (label source now : String) :
    ∀ refs : List Exemplar,
    (∀ r ∈ refs,
      ¬ euclidean_distance emb r.embedding < learn.DUPLICATE_THRESHOLD) →
    learn.closestOf emb (refs ++ [⟨label, emb, source, now, none⟩]) =
      some (0, label) := by
  intro refs
  induction refs with
  | nil =>
      intro _
      simp [learn.closestOf, euclidean_distance_self]
  | cons r rs ih =>
      intro h
      have htail := ih (fun r' hr' => h r' (List.mem_cons_of_mem r hr'))
      have hr := h r (List.mem_cons_self r rs)
      have hpos : (0 : ℝ) < euclidean_distance emb r.embedding := by
        have : learn.DUPLICATE_THRESHOLD ≤ euclidean_distance emb r.embedding :=
          not_lt.mp hr
        have h5 : (0 : ℝ) < learn.DUPLICATE_THRESHOLD := by
          norm_num [learn.DUPLICATE_THRESHOLD]
        linarith
      show learn.closestOf emb (r :: (rs ++ [⟨label, emb, source, now, none⟩]))
          = some (0, label)
      unfold learn.closestOf
      rw [htail]
      dsimp only
      rw [if_pos hpos]

/-! ## C10 -/

/-- C10: frame property of the correction path on a well-formed store.
On `skipped` the store is returned untouched; on `updated` the new store
is the old one with exactly one record replaced by a copy that differs
only in `label` and `updated_at` (so the size is unchanged and nothing is
appended); on `added` the new store is the old one with exactly one
record appended. -/
theorem c10_correction_frame (refs : List Exemplar) (emb : List ℝ)
    (label source now : String) :
    ((learn.learnMain (.good refs) emb label source now).1 = .skipped →
      (learn.learnMain (.good refs) emb label source now).2 = .good refs) ∧
    ((learn.learnMain (.good refs) emb label source now).1 = .updated →
      ∃ i, ∃ hi : i < refs.length,
        (learn.learnMain (.good refs) emb label source now).2 =
          .good (refs.set i
            { refs.get ⟨i, hi⟩ with label := label, updated_at := some now })) ∧
    ((learn.learnMain (.good refs) emb label source now).1 = .added →
      (learn.learnMain (.good refs) emb label source now).2 =
        .good (refs ++ [⟨label, emb, source, now, none⟩])) := by
  rcases ha : (learn.check_for_duplicates emb (.good refs) label).2 with _ | _ | _
  · have hr : learn.learnMain (.good refs) emb label source now =
        (.skipped, .good refs) := by
      unfold learn.learnMain
      dsimp only
      rw [ha]
    rw [hr]
    exact ⟨fun _ => rfl, fun h => by simp at h, fun h => by simp at h⟩
  · rcases hu : learn.updateFirst emb label now refs with _ | data'
    · have hr : learn.learnMain (.good refs) emb label source now =
          (.updateFailed, .good refs) := by
        unfold learn.learnMain
        dsimp only
        rw [ha, hu]
      rw [hr]
      exact ⟨fun h => by simp at h, fun h => by simp at h, fun h => by simp at h⟩
    · have hr : learn.learnMain (.good refs) emb label source now =
          (.updated, .good data') := by
        unfold learn.learnMain
        dsimp only
        rw [ha, hu]
      rw [hr]
      refine ⟨fun h => by simp at h, fun _ => ?_, fun h => by simp at h⟩
      obtain ⟨i, hi, _, _, hset⟩ := updateFirst_spec emb label now refs data' hu
      exact ⟨i, hi, by rw [hset]⟩
  · have hr : learn.learnMain (.good refs) emb label source now =
        (.added, .good (refs ++ [⟨label, emb, source, now, none⟩])) := by
      unfold learn.learnMain
      dsimp only
      rw [ha]
    rw [hr]
    exact ⟨fun h => by simp at h, fun h => by simp at h, fun _ => rfl⟩

/-- Witness for C10: a concrete `added` call on the empty store. -/
theorem c10_correction_frame_witness :
    (learn.learnMain (.good []) [(2 : ℝ)] "a" "s" "t").2 =
      .good [⟨"a", [(2 : ℝ)], "s", "t", none⟩] :=
  (c10_correction_frame [] [(2 : ℝ)] "a" "s" "t").2.2 rfl

/-! ## C4 -/

/-- C4 counterexample: the store holds a record at distance 4 (first) and
one at distance 1 (closest, different label). The correction rewrites the
FIRST record within the duplicate threshold, not the closest one: the
closest exemplar `rClosest` is left untouched and `rNear` is relabelled,
contradicting the claim that the closest exemplar is updated. -/
theorem c4_update_target_counterexample :
    learn.closestOf [(0 : ℝ)] [rNear, rClosest] = some (1, "y") ∧
    (1 : ℝ) < learn.DUPLICATE_THRESHOLD ∧ ("y" : String) ≠ "z" ∧
    learn.learnMain (.good [rNear, rClosest]) [(0 : ℝ)] "z" "src" "T" =
      (.updated, .good [⟨"z", [4], "s0", "t0", some "T"⟩, rClosest]) ∧
    learn.learnMain (.good [rNear, rClosest]) [(0 : ℝ)] "z" "src" "T" ≠
      (.updated, .good [rNear, ⟨"z", [1], "s1", "t1", some "T"⟩]) := by
  have h16 : Real.sqrt 16 = 4 := by
    rw [show (16 : ℝ) = 4 ^ 2 by norm_num, Real.sqrt_sq (by norm_num)]
  have hdn : euclidean_distance [(0 : ℝ)] [4] = 4 := by
    norm_num [euclidean_distance, vecNorm, vsub, sumSq, h16]
  have hdc : euclidean_distance [(0 : ℝ)] [1] = 1 := by
    norm_num [euclidean_distance, vecNorm, vsub, sumSq, Real.sqrt_one]
  have hc : learn.closestOf [(0 : ℝ)] [rNear, rClosest] = some (1, "y") := by
    simp only [learn.closestOf, rNear, rClosest]
    norm_num [hdn, hdc]
  have ha : (learn.check_for_duplicates [(0 : ℝ)]
      (.good [rNear, rClosest]) "z").2 = .update := by
    unfold learn.check_for_duplicates
    dsimp only
    rw [hc]
    norm_num [learn.DUPLICATE_THRESHOLD]
    decide
  have hu : learn.updateFirst [(0 : ℝ)] "z" "T" [rNear, rClosest] =
      some [⟨"z", [4], "s0", "t0", some "T"⟩, rClosest] := by
    unfold learn.updateFirst
    rw [if_pos (by
      show euclidean_distance [(0 : ℝ)] rNear.embedding <
        learn.DUPLICATE_THRESHOLD
      rw [show rNear.embedding = [4] from rfl, hdn]
      norm_num [learn.DUPLICATE_THRESHOLD])]
    simp [rNear]
  have hmain : learn.learnMain (.good [rNear, rClosest]) [(0 : ℝ)] "z" "src" "T"
      = (.updated, .good [⟨"z", [4], "s0", "t0", some "T"⟩, rClosest]) := by
    unfold learn.learnMain
    dsimp only
    rw [ha, hu]
  refine ⟨hc, by norm_num [learn.DUPLICATE_THRESHOLD], by decide, hmain, ?_⟩
  rw [hmain]
  simp [rNear, rClosest]

/-- C4 amended: when the closest exemplar is within the duplicate cutoff
and carries a different label, the correction reports `updated`, appends
nothing, and rewrites in place the label and updated_at of the FIRST
exemplar (in store order) within the cutoff — which need not be the
closest one — leaving every other record unchanged. -/
theorem c4_update_target_amended (refs : List Exemplar) (emb : List ℝ)
    (label source now : String) (d : ℝ) (lb : String)
    (hc : learn.closestOf emb refs = some (d, lb))
    (hd : d < learn.DUPLICATE_THRESHOLD) (hl : lb ≠ label) :
    (learn.learnMain (.good refs) emb label source now).1 = .updated ∧
    ∃ i, ∃ hi : i < refs.length,
      (∀ j, ∀ hj : j < refs.length, j < i →
        ¬ euclidean_distance emb ((refs.get ⟨j, hj⟩).embedding) <
          learn.DUPLICATE_THRESHOLD) ∧
      euclidean_distance emb ((refs.get ⟨i, hi⟩).embedding) <
        learn.DUPLICATE_THRESHOLD ∧
      (learn.learnMain (.good refs) emb label source now).2 =
        .good (refs.set i
          { refs.get ⟨i, hi⟩ with label := label, updated_at := some now }) := by
  cases refs with
  | nil => simp [learn.closestOf] at hc
  | cons r rs =>
      have ha : (learn.check_for_duplicates emb (.good (r :: rs)) label).2 =
          .update := by
        unfold learn.check_for_duplicates
        dsimp only
        rw [hc, if_neg (by simp)]
        dsimp only
        rw [if_pos hd, if_neg hl]
      obtain ⟨rr, hrr, hdd, _⟩ := closestOf_mem emb (r :: rs) d lb hc
      obtain ⟨out, hout⟩ := updateFirst_isSome emb label now (r :: rs)
        ⟨rr, hrr, by rw [hdd]; exact hd⟩
      have hmain : learn.learnMain (.good (r :: rs)) emb label source now =
          (.updated, .good out) := by
        unfold learn.learnMain
        dsimp only
        rw [ha, hout]
      obtain ⟨i, hi, hmin, hdist, hset⟩ :=
        updateFirst_spec emb label now (r :: rs) out hout
      refine ⟨by rw [hmain], i, hi, hmin, hdist, ?_⟩
      rw [hmain]
      exact congrArg StoreFile.good hset

/-- Witness for C4 amended at a one-record store. -/
theorem c4_update_target_amended_witness :
    (learn.learnMain (.good [rClosest]) [(0 : ℝ)] "z" "src" "T").1 =
      .updated := by
  have hdc : euclidean_distance [(0 : ℝ)] [1] = 1 := by
    norm_num [euclidean_distance, vecNorm, vsub, sumSq, Real.sqrt_one]
  have hc : learn.closestOf [(0 : ℝ)] [rClosest] = some (1, "y") := by
    simp only [learn.closestOf, rClosest]
    norm_num [hdc]
  exact (c4_update_target_amended [rClosest] [(0 : ℝ)] "z" "src" "T" 1 "y" hc
    (by norm_num [learn.DUPLICATE_THRESHOLD]) (by decide)).1

/-! ## C5 -/

/-- C5 counterexample: on the two-record store of the C4 counterexample,
inserting ([0], "z") twice yields `updated` both times — the second call
does not skip, because the first update rewrote the first-in-threshold
record while the closest one kept its conflicting label. -/
theorem c5_insertion_idempotent_counterexample :
    (learn.learnMain (.good [rNear, rClosest]) [(0 : ℝ)] "z" "src" "T1").1 =
      .updated ∧
    (learn.learnMain
      ((learn.learnMain (.good [rNear, rClosest]) [(0 : ℝ)] "z" "src" "T1").2)
      [(0 : ℝ)] "z" "src" "T2").1 = .updated ∧
    (learn.learnMain
      ((learn.learnMain (.good [rNear, rClosest]) [(0 : ℝ)] "z" "src" "T1").2)
      [(0 : ℝ)] "z" "src" "T2").1 ≠ .skipped := by
  have h16 : Real.sqrt 16 = 4 := by
    rw [show (16 : ℝ) = 4 ^ 2 by norm_num, Real.sqrt_sq (by norm_num)]
  have hdn : euclidean_distance [(0 : ℝ)] [4] = 4 := by
    norm_num [euclidean_distance, vecNorm, vsub, sumSq, h16]
  have hdc : euclidean_distance [(0 : ℝ)] [1] = 1 := by
    norm_num [euclidean_distance, vecNorm, vsub, sumSq, Real.sqrt_one]
  have hc : learn.closestOf [(0 : ℝ)] [rNear, rClosest] = some (1, "y") := by
    simp only [learn.closestOf, rNear, rClosest]
    norm_num [hdn, hdc]
  have ha : (learn.check_for_duplicates [(0 : ℝ)]
      (.good [rNear, rClosest]) "z").2 = .update := by
    unfold learn.check_for_duplicates
    dsimp only
    rw [hc]
    norm_num [learn.DUPLICATE_THRESHOLD]
    decide
  have hu : learn.updateFirst [(0 : ℝ)] "z" "T1" [rNear, rClosest] =
      some [⟨"z", [4], "s0", "t0", some "T1"⟩, rClosest] := by
    unfold learn.updateFirst
    rw [if_pos (by
      show euclidean_distance [(0 : ℝ)] rNear.embedding <
        learn.DUPLICATE_THRESHOLD
      rw [show rNear.embedding = [4] from rfl, hdn]
      norm_num [learn.DUPLICATE_THRESHOLD])]
    simp [rNear]
  have hmain :
      learn.learnMain (.good [rNear, rClosest]) [(0 : ℝ)] "z" "src" "T1"
      = (.updated, .good [⟨"z", [4], "s0", "t0", some "T1"⟩, rClosest]) := by
    unfold learn.learnMain
    dsimp only
    rw [ha, hu]
  have hc2 : learn.closestOf [(0 : ℝ)]
      [⟨"z", [4], "s0", "t0", some "T1"⟩, rClosest] = some (1, "y") := by
    simp only [learn.closestOf, rClosest]
    norm_num [hdn, hdc]
  have ha2 : (learn.check_for_duplicates [(0 : ℝ)]
      (.good [⟨"z", [4], "s0", "t0", some "T1"⟩, rClosest]) "z").2 =
      .update := by
    unfold learn.check_for_duplicates
    dsimp only
    rw [hc2]
    norm_num [learn.DUPLICATE_THRESHOLD]
    decide
  have hu2 : learn.updateFirst [(0 : ℝ)] "z" "T2"
      [⟨"z", [4], "s0", "t0", some "T1"⟩, rClosest] =
      some [⟨"z", [4], "s0", "t0", some "T2"⟩, rClosest] := by
    unfold learn.updateFirst
    rw [if_pos (by
      show euclidean_distance [(0 : ℝ)]
        (Exemplar.mk "z" [4] "s0" "t0" (some "T1")).embedding <
        learn.DUPLICATE_THRESHOLD
      rw [show (Exemplar.mk "z" [4] "s0" "t0" (some "T1")).embedding =
        [(4 : ℝ)] from rfl, hdn]
      norm_num [learn.DUPLICATE_THRESHOLD])]
  have hmain2 :
      learn.learnMain (.good [⟨"z", [4], "s0", "t0", some "T1"⟩, rClosest])
        [(0 : ℝ)] "z" "src" "T2"
      = (.updated, .good [⟨"z", [4], "s0", "t0", some "T2"⟩, rClosest]) := by
    unfold learn.learnMain
    dsimp only
    rw [ha2, hu2]
  rw [hmain]
  refine ⟨rfl, ?_, ?_⟩
  · rw [hmain2]
  · rw [hmain2]; simp

/-- C5 amended: the insertion policy is idempotent whenever the first
insertion results in `skipped` or `added`: the identical second insertion
is skipped and the store is returned unchanged. (A first insertion that
results in `updated` can repeat, as the counterexample shows.) -/
theorem c5_insertion_idempotent_amended (file : StoreFile) (emb : List ℝ)
    (label source now source2 now2 : String)
    (h : (learn.learnMain file emb label source now).1 = .skipped ∨
         (learn.learnMain file emb label source now).1 = .added) :
    learn.learnMain ((learn.learnMain file emb label source now).2) emb label
      source2 now2 =
      (.skipped, (learn.learnMain file emb label source now).2) := by
  cases file with
  | corrupt =>
      exfalso
      rcases h with h | h <;> simp [learn.learnMain] at h
  | missing =>
      have hr : learn.learnMain .missing emb label source now =
          (.added, .good [⟨label, emb, source, now, none⟩]) := rfl
      rw [hr]
      have hco : learn.closestOf emb [⟨label, emb, source, now, none⟩] =
          some (0, label) := closestOf_append_self emb label source now []
        (by simp)
      have ha : (learn.check_for_duplicates emb
          (.good [⟨label, emb, source, now, none⟩]) label).2 = .skip := by
        unfold learn.check_for_duplicates
        dsimp only
        rw [hco]
        norm_num [learn.DUPLICATE_THRESHOLD]
      unfold learn.learnMain
      dsimp only
      rw [ha]
  | good refs =>
      rcases ha : (learn.check_for_duplicates emb (.good refs) label).2
        with _ | _ | _
      · have hr : learn.learnMain (.good refs) emb label source now =
            (.skipped, .good refs) := by
          unfold learn.learnMain
          dsimp only
          rw [ha]
        rw [hr]
        unfold learn.learnMain
        dsimp only
        rw [ha]
      · exfalso
        rcases hu : learn.updateFirst emb label now refs with _ | data'
        · have hr : learn.learnMain (.good refs) emb label source now =
              (.updateFailed, .good refs) := by
            unfold learn.learnMain
            dsimp only
            rw [ha, hu]
          rcases h with h | h <;> rw [hr] at h <;> simp at h
        · have hr : learn.learnMain (.good refs) emb label source now =
              (.updated, .good data') := by
            unfold learn.learnMain
            dsimp only
            rw [ha, hu]
          rcases h with h | h <;> rw [hr] at h <;> simp at h
      · have hr : learn.learnMain (.good refs) emb label source now =
            (.added, .good (refs ++ [⟨label, emb, source, now, none⟩])) := by
          unfold learn.learnMain
          dsimp only
          rw [ha]
        rw [hr]
        have hfar : ∀ r ∈ refs,
            ¬ euclidean_distance emb r.embedding < learn.DUPLICATE_THRESHOLD := by
          cases refs with
          | nil => simp
          | cons r rs =>
              rcases hco2 : learn.closestOf emb (r :: rs) with _ | ⟨d0, l0⟩
              · exact absurd hco2 (closestOf_ne_none emb r rs)
              · intro r' hr' hlt
                unfold learn.check_for_duplicates at ha
                dsimp only at ha
                rw [hco2, if_neg (by simp)] at ha
                dsimp only at ha
                by_cases h5 : d0 < learn.DUPLICATE_THRESHOLD
                · rw [if_pos h5] at ha
                  by_cases heq : l0 = label
                  · rw [if_pos heq] at ha; simp at ha
                  · rw [if_neg heq] at ha; simp at ha
                · have hle := closestOf_le emb (r :: rs) d0 l0 hco2 r' hr'
                  exact h5 (lt_of_le_of_lt hle hlt)
        have hco := closestOf_append_self emb label source now refs hfar
        have ha2 : (learn.check_for_duplicates emb
            (.good (refs ++ [⟨label, emb, source, now, none⟩])) label).2 =
            .skip := by
          unfold learn.check_for_duplicates
          dsimp only
          rw [hco]
          have hne : (refs ++ [(⟨label, emb, source, now, none⟩ : Exemplar)]).isEmpty =
              false := by
            cases refs <;> simp
          rw [hne]
          norm_num [learn.DUPLICATE_THRESHOLD]
        unfold learn.learnMain
        dsimp only
        rw [ha2]

/-! Helper lemmas for confidence monotonicity. -/

theorem EDT_eq : EXACT_DUPLICATE_THRESHOLD = 5 := by
  norm_num [EXACT_DUPLICATE_THRESHOLD]

theorem VST_eq : VERY_SIMILAR_THRESHOLD = 12 := by
  norm_num [VERY_SIMILAR_THRESHOLD]

theorem base_conf_of_lt5 (x C M : ℝ) (h : x < EXACT_DUPLICATE_THRESHOLD) :
    base_conf x C M =
      if x < 0.1 then 1.00
      else if x < 0.5 then 0.995
      else if x < 1.0 then 0.99
      else if x < 2.0 then 0.985
      else if x < 3.5 then 0.97
      else 0.96 - ((x - 3.5) / 1.5) * 0.01 := by
  unfold base_conf
  rw [if_pos h]

theorem base_conf_of_ge5 (x C M : ℝ) (h : ¬ x < EXACT_DUPLICATE_THRESHOLD) :
    base_conf x C M =
      if C > COSINE_EXACT_THRESHOLD then 0.94
      else if M > 0.90 then 0.88
      else if x < VERY_SIMILAR_THRESHOLD ∧ C > COSINE_VERY_SIMILAR_THRESHOLD
        then 0.82
      else if M > 0.80 then 0.75
      else 0.65 := by
  unfold base_conf
  rw [if_neg h]

theorem base_conf_lt_high (x C M : ℝ) (h : 3.5 ≤ x) :
    base_conf x C M < 0.98 := by
  by_cases h5 : x < EXACT_DUPLICATE_THRESHOLD
  · rw [base_conf_of_lt5 x C M h5]
    rw [EDT_eq] at h5
    split_ifs <;> (try norm_num) <;> (try linarith)
  · rw [base_conf_of_ge5 x C M h5]
    split_ifs <;> norm_num

theorem base_conf_mono_lt5 (C M e eP : ℝ) (hle : e ≤ eP)
    (heP : eP < EXACT_DUPLICATE_THRESHOLD) :
    base_conf eP C M ≤ base_conf e C M := by
  rw [base_conf_of_lt5 e C M (lt_of_le_of_lt hle heP),
    base_conf_of_lt5 eP C M heP]
  split_ifs <;> (try norm_num) <;> (try linarith)

theorem base_conf_mono (C M e eP : ℝ) (hle : e ≤ eP) (ht : sameTier e eP) :
    base_conf eP C M ≤ base_conf e C M := by
  by_cases heP : eP < EXACT_DUPLICATE_THRESHOLD
  · exact base_conf_mono_lt5 C M e eP hle heP
  · have h5e : ¬ e < EXACT_DUPLICATE_THRESHOLD := by
      rw [EDT_eq] at heP ⊢
      rcases ht with h | h | h | h | h | h | h
      · exact absurd (show eP < 5 by linarith [h.2]) heP
      · exact absurd (show eP < 5 by linarith [h.2.2.2]) heP
      · exact absurd (show eP < 5 by linarith [h.2.2.2]) heP
      · exact absurd (show eP < 5 by linarith [h.2.2.2]) heP
      · exact absurd (show eP < 5 by linarith [h.2.2.2]) heP
      · exact absurd (show eP < 5 by linarith [h.2.2.2]) heP
      · intro hh; linarith [h.1]
    rw [base_conf_of_ge5 e C M h5e, base_conf_of_ge5 eP C M heP]
    by_cases hC : C > COSINE_EXACT_THRESHOLD
    · rw [if_pos hC, if_pos hC]
    · rw [if_neg hC, if_neg hC]
      by_cases hM9 : M > 0.90
      · rw [if_pos hM9, if_pos hM9]
      · rw [if_neg hM9, if_neg hM9]
        by_cases hC92 : C > COSINE_VERY_SIMILAR_THRESHOLD
        · by_cases heP12 : eP < VERY_SIMILAR_THRESHOLD
          · have he12 : e < VERY_SIMILAR_THRESHOLD := lt_of_le_of_lt hle heP12
            rw [if_pos (show eP < VERY_SIMILAR_THRESHOLD ∧
                C > COSINE_VERY_SIMILAR_THRESHOLD from ⟨heP12, hC92⟩),
              if_pos (show e < VERY_SIMILAR_THRESHOLD ∧
                C > COSINE_VERY_SIMILAR_THRESHOLD from ⟨he12, hC92⟩)]
          · rw [if_neg (show ¬(eP < VERY_SIMILAR_THRESHOLD ∧
                C > COSINE_VERY_SIMILAR_THRESHOLD) from fun hh => heP12 hh.1)]
            by_cases he12 : e < VERY_SIMILAR_THRESHOLD
            · rw [if_pos (show e < VERY_SIMILAR_THRESHOLD ∧
                  C > COSINE_VERY_SIMILAR_THRESHOLD from ⟨he12, hC92⟩)]
              split_ifs <;> norm_num
            · rw [if_neg (show ¬(e < VERY_SIMILAR_THRESHOLD ∧
                  C > COSINE_VERY_SIMILAR_THRESHOLD) from fun hh => he12 hh.1)]
        · rw [if_neg (show ¬(eP < VERY_SIMILAR_THRESHOLD ∧
              C > COSINE_VERY_SIMILAR_THRESHOLD) from fun hh => hC92 hh.2),
            if_neg (show ¬(e < VERY_SIMILAR_THRESHOLD ∧
              C > COSINE_VERY_SIMILAR_THRESHOLD) from fun hh => hC92 hh.2)]

theorem base_conf_t1 (x C M : ℝ) (h : x < 0.1) : base_conf x C M = 1.00 := by
  rw [base_conf_of_lt5 x C M (by rw [EDT_eq]; linarith), if_pos h]

theorem base_conf_t2 (x C M : ℝ) (h1 : 0.1 ≤ x) (h2 : x < 0.5) :
    base_conf x C M = 0.995 := by
  rw [base_conf_of_lt5 x C M (by rw [EDT_eq]; linarith),
    if_neg (show ¬ x < 0.1 by linarith), if_pos h2]

theorem base_conf_t3 (x C M : ℝ) (h1 : 0.5 ≤ x) (h2 : x < 1.0) :
    base_conf x C M = 0.99 := by
  rw [base_conf_of_lt5 x C M (by rw [EDT_eq]; linarith),
    if_neg (show ¬ x < 0.1 by linarith), if_neg (show ¬ x < 0.5 by linarith),
    if_pos h2]

theorem base_conf_t4 (x C M : ℝ) (h1 : 1.0 ≤ x) (h2 : x < 2.0) :
    base_conf x C M = 0.985 := by
  rw [base_conf_of_lt5 x C M (by rw [EDT_eq]; linarith),
    if_neg (show ¬ x < 0.1 by linarith), if_neg (show ¬ x < 0.5 by linarith),
    if_neg (show ¬ x < 1.0 by linarith), if_pos h2]

theorem base_conf_t5 (x C M : ℝ) (h1 : 2.0 ≤ x) (h2 : x < 3.5) :
    base_conf x C M = 0.97 := by
  rw [base_conf_of_lt5 x C M (by rw [EDT_eq]; linarith),
    if_neg (show ¬ x < 0.1 by linarith), if_neg (show ¬ x < 0.5 by linarith),
    if_neg (show ¬ x < 1.0 by linarith), if_neg (show ¬ x < 2.0 by linarith),
    if_pos h2]

theorem base_conf_eq_or_low (C M e eP : ℝ) (hle : e ≤ eP)
    (ht : sameTier e eP) :
    base_conf e C M = base_conf eP C M ∨
      (base_conf e C M < 0.98 ∧ base_conf eP C M < 0.98) := by
  rcases ht with h | h | h | h | h | h | h
  · exact Or.inl (by rw [base_conf_t1 e C M h.1, base_conf_t1 eP C M h.2])
  · exact Or.inl (by rw [base_conf_t2 e C M h.1 h.2.1,
      base_conf_t2 eP C M h.2.2.1 h.2.2.2])
  · exact Or.inl (by rw [base_conf_t3 e C M h.1 h.2.1,
      base_conf_t3 eP C M h.2.2.1 h.2.2.2])
  · exact Or.inl (by rw [base_conf_t4 e C M h.1 h.2.1,
      base_conf_t4 eP C M h.2.2.1 h.2.2.2])
  · exact Or.inl (by rw [base_conf_t5 e C M h.1 h.2.1,
      base_conf_t5 eP C M h.2.2.1 h.2.2.2])
  · exact Or.inr ⟨base_conf_lt_high e C M h.1,
      base_conf_lt_high eP C M h.2.2.1⟩
  · exact Or.inr ⟨base_conf_lt_high e C M (by linarith [h.1]),
      base_conf_lt_high eP C M (by linarith [h.2])⟩

theorem example_boost_eq (n : ℕ) (b bP : ℝ)
    (h : b = bP ∨ (b < 0.98 ∧ bP < 0.98)) :
    example_boost bP n = example_boost b n := by
  rcases h with h | ⟨h1, h2⟩
  · rw [h]
  · unfold example_boost
    rw [if_pos h1, if_pos h2]

theorem variance_penalty_eq (n : ℕ) (stdE e eP : ℝ) (ht : sameTier e eP) :
    variance_penalty n eP stdE = variance_penalty n e stdE := by
  have key : ∀ x y : ℝ, x < 5 → y < 5 →
      variance_penalty n x stdE = variance_penalty n y stdE := by
    intro x y hx hy
    unfold variance_penalty
    rw [EDT_eq]
    rw [if_neg (by rintro ⟨-, hh⟩; linarith),
      if_neg (by rintro ⟨-, hh⟩; linarith)]
  rcases ht with h | h | h | h | h | h | h
  · exact key eP e (by linarith [h.2]) (by linarith [h.1])
  · exact key eP e (by linarith [h.2.2.2]) (by linarith [h.2.1])
  · exact key eP e (by linarith [h.2.2.2]) (by linarith [h.2.1])
  · exact key eP e (by linarith [h.2.2.2]) (by linarith [h.2.1])
  · exact key eP e (by linarith [h.2.2.2]) (by linarith [h.2.1])
  · exact key eP e (by linarith [h.2.2.2]) (by linarith [h.2.1])
  · obtain ⟨h5e, h5eP⟩ := h
    unfold variance_penalty
    rw [EDT_eq]
    by_cases hn : n ≥ MIN_EXAMPLES_FOR_STATS
    · rw [if_pos (show n ≥ MIN_EXAMPLES_FOR_STATS ∧ eP ≥ 5 from
          ⟨hn, by linarith⟩),
        if_pos (show n ≥ MIN_EXAMPLES_FOR_STATS ∧ e ≥ 5 from
          ⟨hn, by linarith⟩)]
    · rw [if_neg (show ¬(n ≥ MIN_EXAMPLES_FOR_STATS ∧ eP ≥ 5) from
          fun hh => hn hh.1),
        if_neg (show ¬(n ≥ MIN_EXAMPLES_FOR_STATS ∧ e ≥ 5) from
          fun hh => hn hh.1)]


/-! ## C7 -/

/-- C7: the estimated confidence is monotonically non-increasing in
`best_euclidean` within each tier of the base computation (all other
statistics held fixed), and the example-count boost never pushes the
final value above 1.00. -/
theorem c7_confidence_monotone (s : BreedStats) (e eP : ℝ) (hle : e ≤ eP)
    (ht : sameTier e eP) :
    confOfStats { s with min_euclidean := eP } ≤
      confOfStats { s with min_euclidean := e } ∧
    confOfStats { s with min_euclidean := eP } ≤ 1.00 := by
  refine ⟨?_, confOfStats_le_one _⟩
  have hb := base_conf_mono s.max_cosine s.max_combined_score e eP hle ht
  have hboost := example_boost_eq s.num_examples
    (base_conf e s.max_cosine s.max_combined_score)
    (base_conf eP s.max_cosine s.max_combined_score)
    (base_conf_eq_or_low s.max_cosine s.max_combined_score e eP hle ht)
  have hpen := variance_penalty_eq s.num_examples s.std_euclidean e eP ht
  unfold confOfStats
  dsimp only
  rw [hboost, hpen]
  exact min_le_min le_rfl (max_le_max le_rfl (by linarith))

/-- Witness for C7 inside the [3.5, 5) tier. -/
theorem c7_confidence_monotone_witness :
    sameTier 4 4.5 ∧
    confOfStats { wStats with min_euclidean := 4.5 } ≤
      confOfStats { wStats with min_euclidean := 4 } :=
  ⟨by norm_num [sameTier],
   (c7_confidence_monotone wStats 4 4.5 (by norm_num)
     (by norm_num [sameTier])).1⟩

/-! Helper lemmas about the structure of the analyzer output. -/

theorem mem_firstOccur : ∀ (l : List String) (y : String),
    y ∈ firstOccur l ↔ y ∈ l := by
  intro l
  induction l using firstOccur.induct with
  | case1 => intro y; simp [firstOccur]
  | case2 x xs ih =>
      intro y
      rw [firstOccur]
      simp only [List.mem_cons, ih, List.mem_filter, bne_iff_ne, ne_eq]
      constructor
      · rintro (rfl | ⟨hy, -⟩)
        · exact Or.inl rfl
        · exact Or.inr hy
      · rintro (rfl | hy)
        · exact Or.inl rfl
        · by_cases hyx : y = x
          · exact Or.inl hyx
          · exact Or.inr ⟨hy, hyx⟩

theorem matchesFor_eq_nil_iff (emb : List ℝ) (refs : List Exemplar)
    (b : String) :
    matchesFor emb refs b = [] ↔ ∀ r ∈ refs, r.label ≠ b := by
  unfold matchesFor
  rw [List.map_eq_nil_iff, List.filter_eq_nil_iff]
  simp [beq_iff_eq]

theorem lookupBreed_filterMap (emb : List ℝ) (refs : List Exemplar) :
    ∀ (l : List String) (b : String),
    lookupBreed
      (l.filterMap (fun x => (statsFor emb refs x).map (fun s => (x, s)))) b =
      if b ∈ l then statsFor emb refs b else none := by
  intro l
  induction l with
  | nil => intro b; simp [lookupBreed]
  | cons x xs ih =>
      intro b
      rw [List.filterMap_cons]
      rcases hs : statsFor emb refs x with _ | s
      · simp only [Option.map_none']
        rw [ih b]
        by_cases hbx : b = x
        · subst hbx
          rw [hs]
          by_cases hbxs : b ∈ xs <;> simp [hbxs]
        · simp [List.mem_cons, hbx]
      · simp only [Option.map_some']
        show lookupBreed ((x, s) :: _) b = _
        by_cases hxb : x = b
        · subst hxb
          unfold lookupBreed
          rw [if_pos rfl, if_pos (List.mem_cons_self x xs), hs]
        · unfold lookupBreed
          rw [if_neg hxb, ih b]
          by_cases hbxs : b ∈ xs
          · rw [if_pos hbxs, if_pos (List.mem_cons.mpr (Or.inr hbxs))]
          · rw [if_neg hbxs, if_neg (by
              intro hmem
              rcases List.mem_cons.mp hmem with h' | h'
              · exact hxb h'.symm
              · exact hbxs h')]

theorem lookupBreed_analyze (emb : List ℝ) (refs : List Exemplar)
    (b : String) :
    lookupBreed (analyze_memory_matches emb refs) b =
      if b ∈ labelsOf refs then statsFor emb refs b else none := by
  unfold analyze_memory_matches
  exact lookupBreed_filterMap emb refs (labelsOf refs) b

theorem statsFor_fields (emb : List ℝ) (refs : List Exemplar) (b : String)
    (s : BreedStats) (h : statsFor emb refs b = some s) :
    s.num_examples = (refs.filter (fun r => r.label == b)).length ∧
    s.all_matches = matchesFor emb refs b := by
  unfold statsFor at h
  rcases hm : matchesFor emb refs b with _ | ⟨m, ms⟩ <;> rw [hm] at h
  · simp at h
  · dsimp only at h
    have hsym := Option.some_inj.mp h
    constructor
    · rw [← hsym]
      show (m :: ms).length = _
      rw [← hm]
      unfold matchesFor
      rw [List.length_map]
    · rw [← hsym]

theorem memoryCandidates_mem_iff (bs : List (String × BreedStats))
    (b : String) (s : BreedStats) :
    (∃ c ∈ memoryCandidates bs, c.breed = b ∧ c.stats = s) ↔
      ((b, s) ∈ bs ∧ ¬(s.min_euclidean > WEAK_SIMILARITY_THRESHOLD ∧
        s.max_cosine < COSINE_WEAK_THRESHOLD)) := by
  unfold memoryCandidates
  constructor
  · rintro ⟨c, hc, hb, hs⟩
    obtain ⟨p, hp, hfp⟩ := List.mem_filterMap.mp hc
    by_cases hg : p.2.min_euclidean > WEAK_SIMILARITY_THRESHOLD ∧
        p.2.max_cosine < COSINE_WEAK_THRESHOLD
    · rw [if_pos hg] at hfp; cases hfp
    · rw [if_neg hg] at hfp
      obtain rfl := Option.some_inj.mp hfp
      dsimp only at hb hs
      have hpeq : p = (b, s) := Prod.ext hb hs
      subst hpeq
      exact ⟨hp, hg⟩
  · rintro ⟨hmem, hg⟩
    refine ⟨⟨b, memoryScore b s, calculate_memory_confidence bs b, s⟩, ?_,
      rfl, rfl⟩
    apply List.mem_filterMap.mpr
    refine ⟨(b, s), hmem, ?_⟩
    dsimp only
    rw [if_neg hg]

/-! ## C1 -/

theorem statsFor_isSome_iff (emb : List ℝ) (refs : List Exemplar)
    (b : String) :
    (statsFor emb refs b).isSome ↔ ∃ r ∈ refs, r.label = b := by
  constructor
  · intro h
    rcases hm : matchesFor emb refs b with _ | ⟨m, ms⟩
    · unfold statsFor at h
      rw [hm] at h
      simp at h
    · have hne : matchesFor emb refs b ≠ [] := by rw [hm]; simp
      rw [Ne, matchesFor_eq_nil_iff] at hne
      push_neg at hne
      exact hne
  · rintro ⟨r, hr, hl⟩
    unfold statsFor
    rcases hm : matchesFor emb refs b with _ | ⟨m, ms⟩
    · exact absurd hl ((matchesFor_eq_nil_iff emb refs b).mp hm r hr)
    · rfl


theorem pickBest_pair (c1 c2 : MemCand) (h : ¬ c2.score > c1.score) :
    pickBest [c1, c2] = some c1 := by
  simp only [pickBest]
  rw [if_neg h]

/-- C1 amended: when the BEST-SCORING memory candidate (the element the
source reads at index 0 of the score-sorted candidate list) has its best
euclidean distance below the exact-duplicate cutoff, that candidate wins
unconditionally with its estimated confidence and rationale
`memory_exact_duplicate`, regardless of the classifier's label and
confidence. -/
theorem c1_exact_duplicate_amended (model_breed : String) (model_conf : ℝ)
    (bs : List (String × BreedStats)) (c : MemCand)
    (hp : pickBest (memoryCandidates bs) = some c)
    (hd : c.stats.min_euclidean < EXACT_DUPLICATE_THRESHOLD) :
    make_weighted_decision model_breed model_conf bs =
      (c.breed, c.conf,
        ⟨"memory_exact_duplicate", true, some (model_breed == c.breed)⟩) := by
  unfold make_weighted_decision
  rw [hp]
  dsimp only
  rw [if_pos hd]

/-- Witness for C1 amended on a one-candidate mapping with distance 0. -/
theorem c1_exact_duplicate_amended_witness :
    make_weighted_decision "C" 0.5 [("B", wStats)] =
      ("B", 1, ⟨"memory_exact_duplicate", true, some false⟩) := by
  have hscore : memoryScore "B" wStats = 100 := by
    norm_num [memoryScore, wStats, EXACT_DUPLICATE_THRESHOLD]
  have hconf : calculate_memory_confidence [("B", wStats)] "B" = 1 := by
    unfold calculate_memory_confidence
    rw [show lookupBreed [("B", wStats)] "B" = some wStats from by
      simp [lookupBreed]]
    norm_num [confOfStats, base_conf, example_boost, variance_penalty, wStats,
      EXACT_DUPLICATE_THRESHOLD, MIN_EXAMPLES_FOR_STATS]
  have hcands : memoryCandidates [("B", wStats)] = [candB] := by
    unfold memoryCandidates
    simp only [List.filterMap_cons, List.filterMap_nil]
    rw [if_neg (by
      rintro ⟨hh, -⟩
      norm_num [wStats, WEAK_SIMILARITY_THRESHOLD] at hh)]
    rw [hscore, hconf]
    rfl
  have hp : pickBest (memoryCandidates [("B", wStats)]) = some candB := by
    rw [hcands]
    rfl
  have hd : candB.stats.min_euclidean < EXACT_DUPLICATE_THRESHOLD := by
    norm_num [candB, wStats, EXACT_DUPLICATE_THRESHOLD]
  rw [c1_exact_duplicate_amended "C" 0.5 [("B", wStats)] candB hp hd]
  simp [candB]

/-- C1 counterexample: the store holds an exact-duplicate exemplar
(label "B", distance 4 < 5) AND a non-duplicate exemplar (label "A",
distance 16, cosine 63/65). The cosine-ramp branch caps label A's score
at 100, beating label B's duplicate-tier 97, so the best candidate is
not a duplicate: the final label is "A" via `memory_score_advantage`,
not "B" via `memory_exact_duplicate` — refuting the claim that any
exemplar below the cutoff forces the duplicate rule. -/
theorem c1_exact_duplicate_counterexample :
    euclidean_distance qC1 refB.embedding < EXACT_DUPLICATE_THRESHOLD ∧
    refB.label = "B" ∧
    (make_weighted_decision "C" 0.5
      (analyze_memory_matches qC1 [refA, refB])).1 ≠ "B" ∧
    (make_weighted_decision "C" 0.5
      (analyze_memory_matches qC1 [refA, refB])).2.2.decision ≠
      "memory_exact_duplicate" := by
  have h256 : Real.sqrt 256 = 16 := by
    rw [show (256 : ℝ) = 16 ^ 2 by norm_num, Real.sqrt_sq (by norm_num)]
  have h16 : Real.sqrt 16 = 4 := by
    rw [show (16 : ℝ) = 4 ^ 2 by norm_num, Real.sqrt_sq (by norm_num)]
  have h625 : Real.sqrt 625 = 25 := by
    rw [show (625 : ℝ) = 25 ^ 2 by norm_num, Real.sqrt_sq (by norm_num)]
  have h1521 : Real.sqrt 1521 = 39 := by
    rw [show (1521 : ℝ) = 39 ^ 2 by norm_num, Real.sqrt_sq (by norm_num)]
  have heA : euclidean_distance qC1 refA.embedding = 16 := by
    norm_num [euclidean_distance, vecNorm, vsub, sumSq, qC1, refA, h256]
  have heB : euclidean_distance qC1 refB.embedding = 4 := by
    norm_num [euclidean_distance, vecNorm, vsub, sumSq, qC1, refB, h16]
  have hcA : cosine_similarity qC1 refA.embedding = 63 / 65 := by
    unfold cosine_similarity
    rw [show vecNorm qC1 = 25 from by norm_num [vecNorm, sumSq, qC1, h625],
      show vecNorm refA.embedding = 39 from by
        norm_num [vecNorm, sumSq, refA, h1521]]
    rw [if_neg (by norm_num)]
    norm_num [dot, qC1, refA]
  obtain ⟨sA, hsA⟩ : ∃ s, statsFor qC1 [refA, refB] "A" = some s :=
    Option.isSome_iff_exists.mp
      ((statsFor_isSome_iff qC1 [refA, refB] "A").mpr ⟨refA, by simp, rfl⟩)
  obtain ⟨sB, hsB⟩ : ∃ s, statsFor qC1 [refA, refB] "B" = some s :=
    Option.isSome_iff_exists.mp
      ((statsFor_isSome_iff qC1 [refA, refB] "B").mpr ⟨refB, by simp, rfl⟩)
  have hmA : matchesFor qC1 [refA, refB] "A" = [mkMatchInfo qC1 refA] := by
    unfold matchesFor
    simp [refA, refB]
  have hmB : matchesFor qC1 [refA, refB] "B" = [mkMatchInfo qC1 refB] := by
    unfold matchesFor
    simp [refA, refB]
  have hAf : sA.min_euclidean = 16 ∧ sA.max_cosine = 63 / 65 ∧
      sA.num_examples = 1 := by
    unfold statsFor at hsA
    rw [hmA] at hsA
    dsimp only at hsA
    rw [← Option.some_inj.mp hsA]
    refine ⟨?_, ?_, rfl⟩
    · show listMin [(mkMatchInfo qC1 refA).euclidean_distance] = 16
      simp [listMin, mkMatchInfo, calculate_combined_similarity, heA]
    · show listMax [(mkMatchInfo qC1 refA).cosine_similarity] = 63 / 65
      simp [listMax, mkMatchInfo, calculate_combined_similarity, hcA]
  have hBf : sB.min_euclidean = 4 ∧ sB.num_examples = 1 := by
    unfold statsFor at hsB
    rw [hmB] at hsB
    dsimp only at hsB
    rw [← Option.some_inj.mp hsB]
    refine ⟨?_, rfl⟩
    show listMin [(mkMatchInfo qC1 refB).euclidean_distance] = 4
    simp [listMin, mkMatchInfo, calculate_combined_similarity, heB]
  have hlist : analyze_memory_matches qC1 [refA, refB] =
      [("A", sA), ("B", sB)] := by
    unfold analyze_memory_matches
    rw [show labelsOf [refA, refB] = ["A", "B"] from by
      simp [labelsOf, refA, refB, firstOccur]]
    simp only [List.filterMap_cons, List.filterMap_nil, hsA, hsB,
      Option.map_some']
  have hthrE : get_breed_threshold_euclidean "A" = 12 := by
    unfold get_breed_threshold_euclidean
    rw [if_neg (by decide), if_neg (by decide), if_neg (by decide),
      if_neg (by decide), if_neg (by decide), if_neg (by decide),
      if_neg (by decide), if_neg (by decide), VST_eq]
  have hthrC : get_breed_threshold_cosine "A" =
      COSINE_VERY_SIMILAR_THRESHOLD := by
    unfold get_breed_threshold_cosine
    rw [if_neg (by decide), if_neg (by decide), if_neg (by decide),
      if_neg (by decide), if_neg (by decide), if_neg (by decide),
      if_neg (by decide), if_neg (by decide)]
  have hscoreA : memoryScore "A" sA = 100 := by
    unfold memoryScore
    rw [hAf.1, hAf.2.1, hthrE, hthrC]
    rw [if_neg (by norm_num [EXACT_DUPLICATE_THRESHOLD]),
      if_neg (by norm_num [COSINE_EXACT_THRESHOLD]),
      if_neg (by norm_num),
      if_pos (by norm_num [COSINE_VERY_SIMILAR_THRESHOLD])]
    rw [hAf.2.2]
    dsimp only
    rw [if_neg (by rintro ⟨hh, -⟩; norm_num at hh)]
    rw [min_eq_left (by
      norm_num [COSINE_WEAK_THRESHOLD, COSINE_VERY_SIMILAR_THRESHOLD])]
  have hscoreB : memoryScore "B" sB = 97 := by
    unfold memoryScore
    rw [hBf.1]
    rw [if_pos (by norm_num [EXACT_DUPLICATE_THRESHOLD]),
      if_neg (by norm_num), if_neg (by norm_num), if_neg (by norm_num),
      if_neg (by norm_num), if_neg (by norm_num)]
    rw [hBf.2]
    dsimp only
    rw [if_neg (by rintro ⟨hh, -⟩; norm_num at hh)]
    rw [min_eq_right (by norm_num)]
  have hgA : ¬(sA.min_euclidean > WEAK_SIMILARITY_THRESHOLD ∧
      sA.max_cosine < COSINE_WEAK_THRESHOLD) := by
    rintro ⟨hh, -⟩
    rw [hAf.1] at hh
    norm_num [WEAK_SIMILARITY_THRESHOLD] at hh
  have hgB : ¬(sB.min_euclidean > WEAK_SIMILARITY_THRESHOLD ∧
      sB.max_cosine < COSINE_WEAK_THRESHOLD) := by
    rintro ⟨hh, -⟩
    rw [hBf.1] at hh
    norm_num [WEAK_SIMILARITY_THRESHOLD] at hh
  have hcands : memoryCandidates [("A", sA), ("B", sB)] =
      [⟨"A", memoryScore "A" sA,
          calculate_memory_confidence [("A", sA), ("B", sB)] "A", sA⟩,
        ⟨"B", memoryScore "B" sB,
          calculate_memory_confidence [("A", sA), ("B", sB)] "B", sB⟩] := by
    unfold memoryCandidates
    simp only [List.filterMap_cons, List.filterMap_nil]
    rw [if_neg hgA, if_neg hgB]
  have hpick : pickBest (memoryCandidates [("A", sA), ("B", sB)]) =
      some ⟨"A", memoryScore "A" sA,
        calculate_memory_confidence [("A", sA), ("B", sB)] "A", sA⟩ := by
    rw [hcands]
    apply pickBest_pair
    show ¬ memoryScore "B" sB > memoryScore "A" sA
    rw [hscoreA, hscoreB]
    norm_num
  have hres : make_weighted_decision "C" 0.5
      (analyze_memory_matches qC1 [refA, refB]) =
      ("A", calculate_memory_confidence [("A", sA), ("B", sB)] "A",
        ⟨"memory_score_advantage", true, some false⟩) := by
    rw [hlist]
    unfold make_weighted_decision
    rw [hpick]
    dsimp only
    have hnd : ¬ sA.min_euclidean < EXACT_DUPLICATE_THRESHOLD := by
      rw [hAf.1]
      norm_num [EXACT_DUPLICATE_THRESHOLD]
    rw [if_neg hnd]
    have hnb : ¬ ("C" : String) = "A" := by decide
    rw [if_neg hnb]
    have hmv : ¬ ((0.5 : ℝ) > MODEL_VERY_HIGH_CONF ∧
        memoryScore "A" sA < 92) := by
      rintro ⟨hh, -⟩
      norm_num [ MODEL_VERY_HIGH_CONF] at hh
    rw [if_neg hmv]
    have hvis : (if is_visually_similar_breed "C" "A" = true
        then (20 : ℝ) else 15) = 15 := by
      rw [show is_visually_similar_breed "C" "A" = false from by decide]
      simp
    rw [hvis]
    have hadv : memoryScore "A" sA > 0.5 * 100 + 15 := by
      rw [hscoreA]
      norm_num
    rw [if_pos hadv]
  rw [hres]
  refine ⟨by rw [heB]; norm_num [EXACT_DUPLICATE_THRESHOLD], rfl, ?_, ?_⟩
  · simp
  · simp

/-! ## C2 -/

/-- C2 counterexample: an exemplar failing BOTH weak-similarity gate
conditions (euclidean 40 > 30 and cosine 0 < 0.75) nevertheless receives
a statistics entry for its label, with that exemplar counted — so the
analyzer applies no per-exemplar gate at all. -/
theorem c2_analyzer_gating_counterexample :
    euclidean_distance qC2 refFar.embedding > WEAK_SIMILARITY_THRESHOLD ∧
    cosine_similarity qC2 refFar.embedding < COSINE_WEAK_THRESHOLD ∧
    (lookupBreed (analyze_memory_matches qC2 [refFar]) "A").isSome = true ∧
    (lookupBreed (analyze_memory_matches qC2 [refFar]) "A").map
      (fun s => s.num_examples) = some 1 := by
  have h1600 : Real.sqrt 1600 = 40 := by
    rw [show (1600 : ℝ) = 40 ^ 2 by norm_num, Real.sqrt_sq (by norm_num)]
  have hd : euclidean_distance qC2 refFar.embedding = 40 := by
    norm_num [euclidean_distance, vecNorm, vsub, sumSq, qC2, refFar, h1600]
  have hcos : cosine_similarity qC2 refFar.embedding = 0 := by
    unfold cosine_similarity
    rw [if_pos]
    show vecNorm qC2 * vecNorm refFar.embedding = 0
    norm_num [vecNorm, sumSq, qC2, Real.sqrt_zero]
  have hlook : lookupBreed (analyze_memory_matches qC2 [refFar]) "A" =
      statsFor qC2 [refFar] "A" := by
    rw [lookupBreed_analyze]
    rw [if_pos (by simp [labelsOf, firstOccur, refFar])]
  have hsome : (statsFor qC2 [refFar] "A").isSome = true :=
    (statsFor_isSome_iff qC2 [refFar] "A").mpr ⟨refFar, by simp, rfl⟩
  refine ⟨by rw [hd]; norm_num [WEAK_SIMILARITY_THRESHOLD],
    by rw [hcos]; norm_num [COSINE_WEAK_THRESHOLD], by rw [hlook]; exact hsome,
    ?_⟩
  rw [hlook]
  rcases hs : statsFor qC2 [refFar] "A" with _ | s
  · rw [hs] at hsome
    simp at hsome
  · rw [Option.map_some']
    have hn := (statsFor_fields qC2 [refFar] "A" s hs).1
    rw [Option.some_inj, hn]
    simp [refFar]

/-- C2 amended: MemoryAnalyzer applies no weak-similarity gate at all:
its mapping has an entry for every label with at least one exemplar, and
the entry statistics aggregate over ALL of that label's exemplars.
The weak-similarity gate is applied per LABEL in DecisionFusion, which
excludes a label from memory candidacy exactly when its best euclidean
exceeds 30 AND its best cosine is below 0.75. -/
theorem c2_analyzer_gating_amended (emb : List ℝ) (refs : List Exemplar)
    (b : String) :
    ((lookupBreed (analyze_memory_matches emb refs) b).isSome ↔
      ∃ r ∈ refs, r.label = b) ∧
    (∀ s, lookupBreed (analyze_memory_matches emb refs) b = some s →
      s.num_examples = (refs.filter (fun r => r.label == b)).length ∧
      s.all_matches = matchesFor emb refs b) ∧
    (∀ (bs : List (String × BreedStats)) (s : BreedStats),
      (∃ c ∈ memoryCandidates bs, c.breed = b ∧ c.stats = s) ↔
        ((b, s) ∈ bs ∧ ¬(s.min_euclidean > WEAK_SIMILARITY_THRESHOLD ∧
          s.max_cosine < COSINE_WEAK_THRESHOLD))) := by
  refine ⟨?_, ?_, fun bs s => memoryCandidates_mem_iff bs b s⟩
  · rw [lookupBreed_analyze]
    by_cases hb : b ∈ labelsOf refs
    · rw [if_pos hb]
      exact statsFor_isSome_iff emb refs b
    · rw [if_neg hb]
      simp only [Option.isSome_none, Bool.false_eq_true, false_iff]
      rintro ⟨r, hr, hl⟩
      apply hb
      unfold labelsOf
      rw [mem_firstOccur]
      exact List.mem_map.mpr ⟨r, hr, hl⟩
  · intro s hsome
    rw [lookupBreed_analyze] at hsome
    by_cases hb : b ∈ labelsOf refs
    · rw [if_pos hb] at hsome
      exact statsFor_fields emb refs b s hsome
    · rw [if_neg hb] at hsome
      cases hsome

/-- Witness for C2 amended: a concrete candidate passes the label-level
gate in DecisionFusion. -/
theorem c2_analyzer_gating_amended_witness :
    ∃ c ∈ memoryCandidates [("B", wStats)], c.breed = "B" ∧ c.stats = wStats :=
  ((c2_analyzer_gating_amended [] [] "B").2.2 [("B", wStats)] wStats).mpr
    ⟨by simp, by norm_num [wStats, WEAK_SIMILARITY_THRESHOLD]⟩

/-- Witness for C5 amended: first insertion into an empty store is
`added`; the identical second insertion is skipped. -/
theorem c5_insertion_idempotent_amended_witness :
    learn.learnMain
      ((learn.learnMain (.good []) [(1 : ℝ)] "a" "s" "t").2) [(1 : ℝ)] "a"
      "s2" "t2" =
      (.skipped, (learn.learnMain (.good []) [(1 : ℝ)] "a" "s" "t").2) :=
  c5_insertion_idempotent_amended (.good []) [(1 : ℝ)] "a" "s" "t" "s2" "t2"
    (Or.inr rfl)

end PetBreedID
